import Mathlib

/-!
Shallow embedding of the SCHISM-to-NEMO regridding and temporal-assembly
pipeline of this repository (`mobile_bay_schism_converter.py`,
`schism_to_nemo_regridder.py`, `schism_timeseries_to_plasticparcels.py`,
`mobile_converter_robust.py`, `aggregate_mobile_timeseries.py`).

Machine floats are modelled by `ℚ`; a float that may be NaN is modelled by
`Option ℚ` with `none` playing the role of NaN.  `scipy.interpolate.griddata`
with linear interpolation is modelled as barycentric interpolation over a
triangulation of the valid nodes (a list of triangles carrying vertex
coordinates and vertex values), returning the fill value at query points not
covered by any triangle.
-/

namespace SchismRegrid

/-- Model of `np.arange(lo, hi, step)` for positive `step` in exact
arithmetic: the values `lo, lo + step, …` strictly below `hi`;
`np.arange` produces `⌈(hi - lo) / step⌉` points. -/
def arange (lo hi step : ℚ) : List ℚ :=
  (List.range (Int.toNat ⌈(hi - lo) / step⌉)).map (fun i : ℕ => lo + (i : ℚ) * step)

/-- Model of `np.min` over a node-coordinate array (0 on the empty array,
where numpy instead raises; the converters call it on nonempty arrays). -/
def npMin : List ℚ → ℚ
  | [] => 0
  | x :: xs => xs.foldl min x

/-- Model of `np.max` over a node-coordinate array. -/
def npMax : List ℚ → ℚ
  | [] => 0
  | x :: xs => xs.foldl max x

/-- One axis of `MobileBayConverter.create_target_grid`:
`np.arange(mn, mx + resolution, resolution)`. -/
def targetAxis (mn mx res : ℚ) : List ℚ :=
  arange mn (mx + res) res

/-- One 1-D coordinate axis of the target grid built from one coordinate
array of the node cloud (`create_target_grid` applies this to the node
longitudes and to the node latitudes). -/
def create_target_grid_axis (coords : List ℚ) (res : ℚ) : List ℚ :=
  targetAxis (npMin coords) (npMax coords) res

/-- A triangle of the Delaunay triangulation built by
`scipy.interpolate.griddata` over the valid nodes, carrying the coordinates
and the sampled field value of each vertex. -/
structure Tri where
  pa : ℚ × ℚ
  pb : ℚ × ℚ
  pc : ℚ × ℚ
  fa : ℚ
  fb : ℚ
  fc : ℚ

/-- z-component of the 2-D cross product. -/
def cross (ux uy vx vy : ℚ) : ℚ := ux * vy - uy * vx

/-- Twice the signed area of the triangle. -/
def triDet (t : Tri) : ℚ :=
  cross (t.pb.1 - t.pa.1) (t.pb.2 - t.pa.2) (t.pc.1 - t.pa.1) (t.pc.2 - t.pa.2)

/-- Barycentric weight of vertex `pb` at the query point. -/
def baryB (t : Tri) (q : ℚ × ℚ) : ℚ :=
  cross (q.1 - t.pa.1) (q.2 - t.pa.2) (t.pc.1 - t.pa.1) (t.pc.2 - t.pa.2) /
    triDet t

/-- Barycentric weight of vertex `pc` at the query point. -/
def baryC (t : Tri) (q : ℚ × ℚ) : ℚ :=
  cross (t.pb.1 - t.pa.1) (t.pb.2 - t.pa.2) (q.1 - t.pa.1) (q.2 - t.pa.2) /
    triDet t

/-- Barycentric weight of vertex `pa` at the query point. -/
def baryA (t : Tri) (q : ℚ × ℚ) : ℚ := 1 - baryB t q - baryC t q

/-- Whether the query point lies in the (nondegenerate) triangle. -/
def inTri (t : Tri) (q : ℚ × ℚ) : Bool :=
  decide (triDet t ≠ 0) && decide (0 ≤ baryA t q) &&
    decide (0 ≤ baryB t q) && decide (0 ≤ baryC t q)

/-- Barycentric (piecewise-linear) interpolation inside one triangle. -/
def interpTri (t : Tri) (q : ℚ × ℚ) : ℚ :=
  baryA t q * t.fa + baryB t q * t.fb + baryC t q * t.fc

/-- Model of linear `scipy.interpolate.griddata` at one query point:
interpolate inside the containing triangle of the triangulation, and return
the fill value at points not covered by any triangle. -/
def regridPoint (tris : List Tri) (fill : ℚ) (q : ℚ × ℚ) : ℚ :=
  match tris.find? (fun t => inTri t q) with
  | some t => interpTri t q
  | none => fill

/-- Regridding one field onto the flattened target grid. -/
def regridField (tris : List Tri) (fill : ℚ) (targets : List (ℚ × ℚ)) :
    List ℚ :=
  targets.map (regridPoint tris fill)

/-- The `valid_mask` filter of `regrid_schism_data` / `create_bathymetry`:
`~np.isnan(vals) & ~np.isnan(lons) & ~np.isnan(lats)` applied to the three
parallel node arrays, keeping the surviving (lon, lat, value) triples. -/
def validTriples (lons lats vals : List (Option ℚ)) :
    List (Option ℚ × Option ℚ × Option ℚ) :=
  (lons.zip (lats.zip vals)).filter
    (fun t => t.1.isSome && t.2.1.isSome && t.2.2.isSome)

/-- The interpolant input of `SCHISMTimeSeriesConverter.regrid_timeseries`:
`points=np.column_stack([self.lons, self.lats]), values=data` handed to
`griddata` with no NaN mask, so every node is passed through unfiltered. -/
def timeseries_interp_input (lons lats vals : List (Option ℚ)) :
    List (Option ℚ × Option ℚ × Option ℚ) :=
  lons.zip (lats.zip vals)

/-- One variable's body in `MobileBayConverter.regrid_schism_data`: if no
node survives the NaN mask, an all-zeros grid plus a "no valid data" warning;
otherwise linear interpolation from the valid nodes with fill value 0.0.  The
Boolean component records whether the warning was logged. -/
def regrid_schism_var (lons lats vals : List (Option ℚ)) (tris : List Tri)
    (targets : List (ℚ × ℚ)) : List ℚ × Bool :=
  if (validTriples lons lats vals).length = 0 then
    (targets.map (fun _ => (0 : ℚ)), true)
  else
    (regridField tris 0 targets, false)

/-- `MobileBayConverter.create_bathymetry`: the same structure applied to the
node depth array, returning the all-zeros depth grid plus a warning when no
node survives the NaN mask. -/
def create_bathymetry (lons lats depths : List (Option ℚ)) (tris : List Tri)
    (targets : List (ℚ × ℚ)) : List ℚ × Bool :=
  if (validTriples lons lats depths).length = 0 then
    (targets.map (fun _ => (0 : ℚ)), true)
  else
    (regridField tris 0 targets, false)

/-- A concrete triangle on the unit simplex, used for concrete instances. -/
def triUnit : Tri := ⟨(0, 0), (1, 0), (0, 1), 1, 2, 3⟩

/-- The `time_counter` unit attribute written by `save_daily_files`. -/
def time_counter_units : String := "seconds since 2024-01-01 00:00:00"

/-- Hour-counter time coordinate of
`SCHISMTimeSeriesConverter.save_nemo_timeseries` (and of
`convert_mobile_schism_robust` and `aggregate_mobile_timeseries`):
`np.arange(n_times, dtype=float)`. -/
def timeseries_time_hours (n : ℕ) : List ℚ := arange 0 n 1

/-- Time coordinate of `MobileBayConverter.save_daily_files`:
`np.arange(day * hours_per_day, (day + 1) * hours_per_day)[:n_hours] * 3600`. -/
def save_daily_time_seconds (hoursPerDay day nHours : ℕ) : List ℚ :=
  ((arange ((day * hoursPerDay : ℕ) : ℚ) (((day + 1) * hoursPerDay : ℕ) : ℚ)
      1).take nHours).map (fun t => t * 3600)

/-- Binary wet mask of `save_mesh_files`: `mbathy` starts as ones and is
zeroed where the regridded depth is ≤ 0. -/
def mk_wet_mask (bathy : List (List ℚ)) : List (List ℕ) :=
  bathy.map (fun row => row.map (fun d => if d ≤ 0 then 0 else 1))

/-- The Z-level table of `SCHISMToNEMORegridder.create_target_grid`. -/
def defaultTargetDepths : List ℚ :=
  [0.5, 1.5, 2.6, 3.8, 5.1, 6.4, 7.9, 9.6, 11.4, 13.5,
   15.8, 18.4, 21.3, 24.6, 28.2, 32.3, 36.9, 42.0, 47.7, 54.0,
   61.0, 68.8, 77.4, 86.9, 97.4, 109.0, 121.8, 136.0, 151.7, 169.1,
   188.4, 209.7, 233.4, 259.6, 288.6, 320.7, 356.2, 395.4, 438.8, 486.8,
   539.8, 598.2, 662.4, 732.9, 810.2, 895.0, 987.8, 1089.4, 1200.4, 1321.4]

/-- One cell of `create_nemo_bathymetry`: `mbathy` starts at 0 and the loop
`for i, depth in enumerate(target_depths): mbathy[bathy > depth] = i + 1`
leaves one plus the last level index whose depth the cell exceeds. -/
def mbathy_levels_cell (levels : List ℚ) (d : ℚ) : ℕ :=
  (levels.enum).foldl (fun acc p => if p.2 < d then p.1 + 1 else acc) 0

/-- The leveled mbathy grid of `create_nemo_bathymetry`. -/
def create_nemo_mbathy (levels : List ℚ) (bathy : List (List ℚ)) :
    List (List ℕ) :=
  bathy.map (fun row => row.map (mbathy_levels_cell levels))

/-- `np.zeros_like(daily_data[U])`: the fabricated W / vovecrtz field. -/
def make_W (u : List (List (List ℚ))) : List (List (List ℚ)) :=
  u.map (fun plane => plane.map (fun row => row.map (fun _ => (0 : ℚ))))

/-- `np.full_like(daily_data[U], 35.0)`: the fabricated S / vosaline field. -/
def make_S (u : List (List (List ℚ))) : List (List (List ℚ)) :=
  u.map (fun plane => plane.map (fun row => row.map (fun _ => (35 : ℚ))))

/-- Shape of a 3-D (time, y, x) array, as the row lengths of every plane. -/
def shape3 (a : List (List (List ℚ))) : List (List ℕ) :=
  a.map (fun plane => plane.map List.length)

/-- Number of daily output files in `MobileBayConverter.convert`:
`len(schism_files) // hours_per_day + (1 if len % hours_per_day else 0)`. -/
def n_days (nFiles hoursPerDay : ℕ) : ℕ :=
  nFiles / hoursPerDay + (if nFiles % hoursPerDay = 0 then 0 else 1)

/-- The files of day `d` in `MobileBayConverter.convert`:
`schism_files[d * hours_per_day : min((d + 1) * hours_per_day, len)]`. -/
def day_files {α : Type*} (files : List α) (hoursPerDay d : ℕ) : List α :=
  (files.drop (d * hoursPerDay)).take hoursPerDay

/-- The daily partition of the input snapshot files. -/
def day_chunks {α : Type*} (files : List α) (hoursPerDay : ℕ) :
    List (List α) :=
  (List.range (n_days files.length hoursPerDay)).map
    (day_files files hoursPerDay)

theorem foldl_min_le (x : ℚ) (ys : List ℚ) : ys.foldl min x ≤ x := by
  induction ys generalizing x with
  | nil => exact le_refl x
  | cons y ys ih => exact le_trans (ih (min x y)) (min_le_left x y)

theorem le_foldl_max (x : ℚ) (ys : List ℚ) : x ≤ ys.foldl max x := by
  induction ys generalizing x with
  | nil => exact le_refl x
  | cons y ys ih => exact le_trans (le_max_left x y) (ih (max x y))

theorem npMin_le_npMax {coords : List ℚ} (h : coords ≠ []) :
    npMin coords ≤ npMax coords := by
  cases coords with
  | nil => exact absurd rfl h
  | cons x xs => exact le_trans (foldl_min_le x xs) (le_foldl_max x xs)

/-- `arange` over natural endpoints with unit step is the integer interval. -/
theorem arange_nat (a b : ℕ) (h : a ≤ b) :
    arange a b 1 = (List.range (b - a)).map (fun i => ((a + i : ℕ) : ℚ)) := by
  unfold arange
  have h1 : ((b : ℚ) - a) / 1 = ((b - a : ℕ) : ℚ) := by
    rw [div_one, Nat.cast_sub h]
  rw [h1, Int.ceil_natCast, Int.toNat_natCast]
  have h2 : (fun i : ℕ => (a : ℚ) + i * 1) = fun i : ℕ => ((a + i : ℕ) : ℚ) := by
    funext i
    push_cast
    ring
  rw [h2]

/-- Point count and coverage of one `np.arange(mn, mx + res, res)` axis. -/
theorem targetAxis_spec (mn mx res : ℚ) (hmm : mn ≤ mx) (hres : 0 < res) :
    ((targetAxis mn mx res).length = (⌊(mx - mn) / res⌋).toNat + 1 ∨
      (targetAxis mn mx res).length = (⌊(mx - mn) / res⌋).toNat + 2) ∧
    (∃ v, (targetAxis mn mx res).getLast? = some v ∧ mx ≤ v) ∧
    (targetAxis mn mx res).head? = some mn := by
  have hne : res ≠ 0 := ne_of_gt hres
  set x : ℚ := (mx - mn) / res with hxdef
  have hx0 : 0 ≤ x := div_nonneg (sub_nonneg.mpr hmm) hres.le
  have hkey : (mx + res - mn) / res = x + 1 := by
    rw [hxdef]
    field_simp
    ring
  have hceil : ⌈(mx + res - mn) / res⌉ = ⌈x⌉ + 1 := by
    rw [hkey, Int.ceil_add_one]
  have hc0 : 0 ≤ ⌈x⌉ := Int.ceil_nonneg hx0
  have hn : Int.toNat (⌈x⌉ + 1) = Int.toNat ⌈x⌉ + 1 := by omega
  have hax : targetAxis mn mx res =
      (List.range (Int.toNat ⌈x⌉ + 1)).map (fun i : ℕ => mn + (i : ℚ) * res) := by
    unfold targetAxis arange
    rw [hceil, hn]
  refine ⟨?_, ⟨mn + ((Int.toNat ⌈x⌉ : ℕ) : ℚ) * res, ?_, ?_⟩, ?_⟩
  · have hlen : (targetAxis mn mx res).length = Int.toNat ⌈x⌉ + 1 := by
      rw [hax, List.length_map, List.length_range]
    have hfc := Int.floor_le_ceil x
    have hcf := Int.ceil_le_floor_add_one x
    omega
  · rw [hax, List.range_succ, List.map_append]
    simp
  · have h1 : (x : ℚ) ≤ (⌈x⌉ : ℚ) := Int.le_ceil x
    have h2 : ((Int.toNat ⌈x⌉ : ℕ) : ℚ) = ((⌈x⌉ : ℤ) : ℚ) := by
      have h5 := Int.toNat_of_nonneg hc0
      exact_mod_cast congrArg (fun z : ℤ => (z : ℚ)) h5
    have h3 : x * res = mx - mn := by
      rw [hxdef]
      field_simp
    have h4 : x * res ≤ (⌈x⌉ : ℚ) * res := mul_le_mul_of_nonneg_right h1 hres.le
    rw [h2]
    linarith
  · rw [hax, List.range_succ_eq_map]
    simp

/-- Claim C3: for a nonempty node coordinate array and resolution r > 0, the
1-D target axis built by `create_target_grid` has `⌊(max - min) / r⌋ + 1`
points, up to one more for the inclusive upper bound, its first point is the
coordinate minimum, and its last point is at least the coordinate maximum, so
the axis covers the node cloud's extent inclusive of the upper bound. -/
theorem create_target_grid_axis_count_coverage (coords : List ℚ) (res : ℚ)
    (hne : coords ≠ []) (hres : 0 < res) :
    ((create_target_grid_axis coords res).length =
        (⌊(npMax coords - npMin coords) / res⌋).toNat + 1 ∨
      (create_target_grid_axis coords res).length =
        (⌊(npMax coords - npMin coords) / res⌋).toNat + 2) ∧
    (∃ v, (create_target_grid_axis coords res).getLast? = some v ∧
        npMax coords ≤ v) ∧
    (create_target_grid_axis coords res).head? = some (npMin coords) :=
  targetAxis_spec _ _ _ (npMin_le_npMax hne) hres

/-- Concrete instance of claim C3 at coords `[0, 1]`, resolution `1/2`. -/
theorem create_target_grid_axis_count_coverage_witness :
    (([0, 1] : List ℚ) ≠ [] ∧ (0 : ℚ) < 1 / 2) ∧
    (∃ v, (create_target_grid_axis [0, 1] (1 / 2)).getLast? = some v ∧
        npMax [0, 1] ≤ v) :=
  ⟨⟨by simp, by norm_num⟩,
    (create_target_grid_axis_count_coverage [0, 1] (1 / 2) (by simp)
      (by norm_num)).2.1⟩

/-- A nonnegative convex combination of three points lies in the convex hull
of the three points. -/
theorem combo3_mem_convexHull {pa pb pc : ℚ × ℚ} {wa wb wc : ℚ}
    (ha : 0 ≤ wa) (hb : 0 ≤ wb) (hc : 0 ≤ wc) (hsum : wa + wb + wc = 1) :
    wa • pa + (wb • pb + wc • pc) ∈
      convexHull ℚ ({pa, pb, pc} : Set (ℚ × ℚ)) := by
  have hconv : Convex ℚ (convexHull ℚ ({pa, pb, pc} : Set (ℚ × ℚ))) :=
    convex_convexHull ℚ _
  have hpa : pa ∈ convexHull ℚ ({pa, pb, pc} : Set (ℚ × ℚ)) :=
    subset_convexHull ℚ _ (by simp)
  have hpb : pb ∈ convexHull ℚ ({pa, pb, pc} : Set (ℚ × ℚ)) :=
    subset_convexHull ℚ _ (by simp)
  have hpc : pc ∈ convexHull ℚ ({pa, pb, pc} : Set (ℚ × ℚ)) :=
    subset_convexHull ℚ _ (by simp)
  rcases eq_or_lt_of_le (add_nonneg hb hc) with h0 | hpos
  · have hb0 : wb = 0 := by linarith
    have hc0 : wc = 0 := by linarith
    have ha1 : wa = 1 := by linarith
    rw [hb0, hc0, ha1]
    simpa using hpa
  · have hm : wb + wc ≠ 0 := ne_of_gt hpos
    have hr : (wb / (wb + wc)) • pb + (wc / (wb + wc)) • pc ∈
        convexHull ℚ ({pa, pb, pc} : Set (ℚ × ℚ)) :=
      hconv hpb hpc (div_nonneg hb hpos.le) (div_nonneg hc hpos.le)
        (by field_simp)
    have hq : wa • pa + (wb + wc) •
        ((wb / (wb + wc)) • pb + (wc / (wb + wc)) • pc) =
        wa • pa + (wb • pb + wc • pc) := by
      have h1 : (wb + wc) * (wb / (wb + wc)) = wb := by
        field_simp
      have h2 : (wb + wc) * (wc / (wb + wc)) = wc := by
        field_simp
      rw [smul_add, smul_smul, smul_smul, h1, h2]
    have hfin := hconv hpa hr ha hpos.le (by linarith)
    rwa [hq] at hfin

/-- `inTri` unfolded to its propositional content. -/
theorem inTri_eq_true_iff (t : Tri) (q : ℚ × ℚ) :
    inTri t q = true ↔
      triDet t ≠ 0 ∧ 0 ≤ baryA t q ∧ 0 ≤ baryB t q ∧ 0 ≤ baryC t q := by
  simp [inTri, and_assoc]

/-- In a nondegenerate triangle the barycentric weights reconstruct the query
point. -/
theorem bary_combo (t : Tri) (q : ℚ × ℚ) (hd : triDet t ≠ 0) :
    baryA t q • t.pa + (baryB t q • t.pb + baryC t q • t.pc) = q := by
  have hd' : cross (t.pb.1 - t.pa.1) (t.pb.2 - t.pa.2) (t.pc.1 - t.pa.1)
      (t.pc.2 - t.pa.2) ≠ 0 := hd
  unfold cross at hd'
  apply Prod.ext
  · simp only [Prod.fst_add, Prod.smul_fst, smul_eq_mul]
    unfold baryA baryB baryC triDet cross
    field_simp
    ring
  · simp only [Prod.snd_add, Prod.smul_snd, smul_eq_mul]
    unfold baryA baryB baryC triDet cross
    field_simp
    ring

/-- A point inside a triangle of the triangulation lies in the convex hull of
that triangle's vertices. -/
theorem mem_convexHull_of_inTri {t : Tri} {q : ℚ × ℚ}
    (h : inTri t q = true) :
    q ∈ convexHull ℚ ({t.pa, t.pb, t.pc} : Set (ℚ × ℚ)) := by
  rcases (inTri_eq_true_iff t q).1 h with ⟨hd, hA, hB, hC⟩
  have hsum : baryA t q + baryB t q + baryC t q = 1 := by
    unfold baryA
    ring
  have hmem := @combo3_mem_convexHull t.pa t.pb t.pc _ _ _ hA hB hC hsum
  rwa [bary_combo t q hd] at hmem

/-- Outside the convex hull of the triangulated node set, interpolation
returns the fill value. -/
theorem regridPoint_eq_fill {tris : List Tri} {fill : ℚ} {q : ℚ × ℚ}
    {S : Set (ℚ × ℚ)}
    (hT : ∀ t ∈ tris, t.pa ∈ S ∧ t.pb ∈ S ∧ t.pc ∈ S)
    (hq : q ∉ convexHull ℚ S) : regridPoint tris fill q = fill := by
  have hnone : tris.find? (fun t => inTri t q) = none := by
    rw [List.find?_eq_none]
    intro t ht hmem
    apply hq
    have hsub : ({t.pa, t.pb, t.pc} : Set (ℚ × ℚ)) ⊆ S := by
      rcases hT t ht with ⟨h1, h2, h3⟩
      intro p hp
      simp only [Set.mem_insert_iff, Set.mem_singleton_iff] at hp
      rcases hp with rfl | rfl | rfl
      · exact h1
      · exact h2
      · exact h3
    exact convexHull_mono hsub (mem_convexHull_of_inTri hmem)
  rw [regridPoint, hnone]

/-- Claim C1: every target grid point strictly outside the convex hull of the
valid source nodes equals the configured fill value in the regridded output,
for any fill value and any triangulation whose vertices are valid nodes. -/
theorem regrid_outside_hull_eq_fill (tris : List Tri) (fill : ℚ)
    (targets : List (ℚ × ℚ)) (S : Set (ℚ × ℚ))
    (hT : ∀ t ∈ tris, t.pa ∈ S ∧ t.pb ∈ S ∧ t.pc ∈ S)
    (i : ℕ) (hi : i < targets.length)
    (hq : targets.get ⟨i, hi⟩ ∉ convexHull ℚ S)
    (hlen : i < (regridField tris fill targets).length) :
    (regridField tris fill targets).get ⟨i, hlen⟩ = fill := by
  have hget : (regridField tris fill targets).get ⟨i, hlen⟩ =
      regridPoint tris fill (targets.get ⟨i, hi⟩) := by
    simp [regridField, List.get_eq_getElem, List.getElem_map]
  rw [hget]
  exact regridPoint_eq_fill hT hq

/-- Concrete instance of claim C1: the point (5, 5) lies strictly outside the
hull of the unit-simplex nodes and regrids to the fill value 0. -/
theorem regrid_outside_hull_eq_fill_witness :
    (((5 : ℚ), (5 : ℚ)) ∉
      convexHull ℚ ({((0 : ℚ), (0 : ℚ)), (1, 0), (0, 1)} : Set (ℚ × ℚ))) ∧
    (regridField [triUnit] 0 [((5 : ℚ), (5 : ℚ))]).get
      ⟨0, by simp [regridField]⟩ = 0 := by
  have hconv : Convex ℚ {p : ℚ × ℚ | p.1 ≤ 1} :=
    convex_halfSpace_le ⟨fun a b => rfl, fun c a => rfl⟩ 1
  have hS : ({((0 : ℚ), (0 : ℚ)), (1, 0), (0, 1)} : Set (ℚ × ℚ)) ⊆
      {p : ℚ × ℚ | p.1 ≤ 1} := by
    intro p hp
    simp only [Set.mem_insert_iff, Set.mem_singleton_iff] at hp
    rcases hp with rfl | rfl | rfl <;> norm_num
  have hout : (((5 : ℚ), (5 : ℚ))) ∉
      convexHull ℚ ({((0 : ℚ), (0 : ℚ)), (1, 0), (0, 1)} : Set (ℚ × ℚ)) := by
    intro hmem
    have h5 := convexHull_min hS hconv hmem
    norm_num at h5
  refine ⟨hout, ?_⟩
  exact regrid_outside_hull_eq_fill [triUnit] 0 [((5 : ℚ), (5 : ℚ))] _
    (by simp [triUnit]) 0 (by simp) hout (by simp [regridField])

/-- The NaN mask of `regrid_schism_data` removes every node with a NaN
longitude, latitude or value, and every surviving triple has all three
components finite. -/
theorem valid_mask_excludes_nan (lons lats vals : List (Option ℚ)) :
    (∀ t ∈ validTriples lons lats vals,
        t.1.isSome = true ∧ t.2.1.isSome = true ∧ t.2.2.isSome = true) ∧
    ∀ t : Option ℚ × Option ℚ × Option ℚ,
      (t.1 = none ∨ t.2.1 = none ∨ t.2.2 = none) →
        t ∉ validTriples lons lats vals := by
  constructor
  · intro t ht
    have hp := (List.mem_filter.mp ht).2
    simpa [Bool.and_eq_true, and_assoc] using hp
  · intro t hnone hmem
    have hp := (List.mem_filter.mp hmem).2
    rcases hnone with h1 | h1 | h1 <;> rw [h1] at hp <;> simp at hp

/-- Claim C2 counterexample: `regrid_timeseries` passes a node with NaN field
value into the interpolant input set, so NaN nodes are not excluded before
triangulation there. -/
theorem timeseries_includes_nan_counterexample :
    (some (1 : ℚ), some (2 : ℚ), (none : Option ℚ)) ∈
      timeseries_interp_input [some 1] [some 2] [none] ∧
    (some (1 : ℚ), some (2 : ℚ), (none : Option ℚ)).2.2 = none := by
  constructor
  · exact List.mem_singleton.mpr rfl
  · rfl

/-- Claim C2 amended: in `regrid_schism_data` (and `create_bathymetry` and
`mobile_converter_robust`) the `valid_mask` excludes every node with a NaN
longitude, latitude or value before triangulation, so that interpolant input
holds only finite nodes; `SCHISMTimeSeriesConverter.regrid_timeseries`,
however, passes every node of the zipped coordinate/value arrays to the
interpolant unmasked, NaN nodes included. -/
theorem nan_exclusion_masked_vs_timeseries (lons lats vals : List (Option ℚ)) :
    (∀ t ∈ validTriples lons lats vals,
        t.1.isSome = true ∧ t.2.1.isSome = true ∧ t.2.2.isSome = true) ∧
    (∀ t : Option ℚ × Option ℚ × Option ℚ,
        (t.1 = none ∨ t.2.1 = none ∨ t.2.2 = none) →
          t ∉ validTriples lons lats vals) ∧
    ∀ t ∈ lons.zip (lats.zip vals),
      t ∈ timeseries_interp_input lons lats vals := by
  refine ⟨(valid_mask_excludes_nan lons lats vals).1,
    (valid_mask_excludes_nan lons lats vals).2, ?_⟩
  intro t ht
  simpa [timeseries_interp_input] using ht

/-- Concrete instance of the amended claim C2: a node with NaN value is
excluded by the mask. -/
theorem nan_exclusion_masked_vs_timeseries_witness :
    ((some (1 : ℚ), some (2 : ℚ), (none : Option ℚ)).2.2 = none) ∧
    (some (1 : ℚ), some (2 : ℚ), (none : Option ℚ)) ∉
      validTriples [some 1] [some 2] [none] :=
  ⟨rfl, (nan_exclusion_masked_vs_timeseries [some 1] [some 2] [none]).2.1 _
    (Or.inr (Or.inr rfl))⟩

/-- When every value is NaN, no node survives the mask. -/
theorem validTriples_eq_nil_of_vals_none (lons lats vals : List (Option ℚ))
    (h : ∀ v ∈ vals, v = (none : Option ℚ)) :
    validTriples lons lats vals = [] := by
  rw [validTriples, List.filter_eq_nil_iff]
  intro t ht
  obtain ⟨a, b, c⟩ := t
  have h2 : (b, c) ∈ lats.zip vals := (List.of_mem_zip ht).2
  have h3 : c ∈ vals := (List.of_mem_zip h2).2
  rw [h c h3]
  simp

/-- Claim C7: whenever the set of nodes with finite coordinates and finite
value is empty (in particular for an all-NaN field), the regridder returns
the all-fill-value grid (fill 0.0) plus the no-valid-data warning, instead of
failing. -/
theorem regrid_empty_valid_gives_fill_and_warning (lons lats : List (Option ℚ))
    (vals : List (Option ℚ)) (tris : List Tri) (targets : List (ℚ × ℚ))
    (hvalid : validTriples lons lats vals = []) :
    (regrid_schism_var lons lats vals tris targets).1 =
      targets.map (fun _ => (0 : ℚ)) ∧
    (regrid_schism_var lons lats vals tris targets).2 = true := by
  constructor <;> simp [regrid_schism_var, hvalid]

/-- Concrete instance of claim C7 with one all-NaN node value. -/
theorem regrid_empty_valid_gives_fill_and_warning_witness :
    validTriples [some 0] [some 0] [none] = [] ∧
    (regrid_schism_var [some 0] [some 0] [none] [] [((0 : ℚ), 0)]).1 =
      [(0 : ℚ)] ∧
    (regrid_schism_var [some 0] [some 0] [none] [] [((0 : ℚ), 0)]).2 =
      true :=
  ⟨rfl,
    (regrid_empty_valid_gives_fill_and_warning [some 0] [some 0] [none] []
      [((0 : ℚ), 0)] rfl).1,
    (regrid_empty_valid_gives_fill_and_warning [some 0] [some 0] [none] []
      [((0 : ℚ), 0)] rfl).2⟩

/-- Claim C8 counterexample: with zero nodes, `create_bathymetry` returns a
grid (all zeros, with only a warning flag) instead of raising any error. -/
theorem create_bathymetry_zero_nodes_counterexample :
    create_bathymetry [] [] [] [] [((0 : ℚ), 0)] = ([0], true) := by
  rfl

/-- Claim C8 amended: when no node survives the NaN mask — zero nodes, or
every node with NaN depth or NaN coordinates — `create_bathymetry` logs the
no-valid-data warning and returns the all-zero depth grid; no
`EmptyDomainError` is raised anywhere. -/
theorem create_bathymetry_no_valid_returns_zero_grid
    (lons lats depths : List (Option ℚ)) (tris : List Tri)
    (targets : List (ℚ × ℚ))
    (hvalid : validTriples lons lats depths = []) :
    create_bathymetry lons lats depths tris targets =
      (targets.map (fun _ => (0 : ℚ)), true) := by
  simp [create_bathymetry, hvalid]

/-- Concrete instance of the amended claim C8: one node with finite depth but
NaN longitude. -/
theorem create_bathymetry_no_valid_returns_zero_grid_witness :
    validTriples [none] [some 0] [some 5] = [] ∧
    create_bathymetry [none] [some 0] [some 5] [] [((0 : ℚ), 0)] =
      ([0], true) :=
  ⟨rfl,
    create_bathymetry_no_valid_returns_zero_grid [none] [some 0] [some 5] []
      [((0 : ℚ), 0)] rfl⟩

/-- Claim C4: assembling n one-step snapshots yields the hour counter
`[0, …, n-1]` under the hour encoding, and `[0, 3600, …, 3600 * (n-1)]`
under the seconds encoding of `save_daily_files` (day 0), whose unit
attribute is an explicit "seconds since" epoch string. -/
theorem time_coordinate_encodings (n hoursPerDay : ℕ) (hn : n ≤ hoursPerDay) :
    timeseries_time_hours n = (List.range n).map (fun i : ℕ => (i : ℚ)) ∧
    save_daily_time_seconds hoursPerDay 0 n =
      (List.range n).map (fun i : ℕ => (i : ℚ) * 3600) ∧
    ∃ s, time_counter_units = "seconds since " ++ s := by
  refine ⟨?_, ?_, ⟨"2024-01-01 00:00:00", rfl⟩⟩
  · rw [timeseries_time_hours]
    have h0 : (0 : ℚ) = ((0 : ℕ) : ℚ) := by norm_num
    have hn' : (n : ℚ) = ((n : ℕ) : ℚ) := rfl
    rw [h0, arange_nat 0 n (Nat.zero_le n)]
    simp
  · rw [save_daily_time_seconds,
      arange_nat (0 * hoursPerDay) ((0 + 1) * hoursPerDay)
        (Nat.mul_le_mul_right _ (by omega))]
    simp only [Nat.zero_mul, Nat.zero_add, Nat.one_mul, Nat.sub_zero,
      Nat.cast_zero]
    rw [← List.map_take, List.take_range, inf_eq_left.mpr hn,
      List.map_map]
    simp [Function.comp_def]

/-- Concrete instance of claim C4 with 5 snapshots and 24 hours per day. -/
theorem time_coordinate_encodings_witness :
    5 ≤ 24 ∧
    timeseries_time_hours 5 = [0, 1, 2, 3, 4] ∧
    save_daily_time_seconds 24 0 5 = [0, 3600, 7200, 10800, 14400] := by
  have h := time_coordinate_encodings 5 24 (by norm_num)
  refine ⟨by norm_num, ?_, ?_⟩
  · rw [h.1]
    norm_num [List.range_succ]
  · rw [h.2.1]
    norm_num [List.range_succ]

/-- `arange` with positive step is strictly increasing. -/
theorem arange_pairwise_lt (lo hi step : ℚ) (h : 0 < step) :
    (arange lo hi step).Pairwise (· < ·) := by
  unfold arange
  refine List.Pairwise.map _ ?_ (List.pairwise_lt_range _)
  intro a b hab
  have hab' : (a : ℚ) < b := by exact_mod_cast hab
  have h2 := mul_lt_mul_of_pos_right hab' h
  linarith

/-- Length of `arange` over natural endpoints with unit step. -/
theorem arange_nat_length (a b : ℕ) (h : a ≤ b) :
    (arange a b 1).length = b - a := by
  rw [arange_nat a b h, List.length_map, List.length_range]

/-- Claim C5: both assembled `time_counter` coordinates are strictly
increasing, with one entry per assembled time step; no non-monotonic or
duplicate time index can be produced. -/
theorem assembled_time_strictly_increasing (n hoursPerDay day nHours : ℕ)
    (hn : nHours ≤ hoursPerDay) :
    (timeseries_time_hours n).Pairwise (· < ·) ∧
    (timeseries_time_hours n).length = n ∧
    (save_daily_time_seconds hoursPerDay day nHours).Pairwise (· < ·) ∧
    (save_daily_time_seconds hoursPerDay day nHours).length = nHours := by
  refine ⟨arange_pairwise_lt 0 n 1 one_pos, ?_, ?_, ?_⟩
  · rw [timeseries_time_hours]
    have h0 : (0 : ℚ) = ((0 : ℕ) : ℚ) := by norm_num
    rw [h0, arange_nat_length 0 n (Nat.zero_le n)]
    omega
  · have hp := arange_pairwise_lt ((day * hoursPerDay : ℕ) : ℚ)
      (((day + 1) * hoursPerDay : ℕ) : ℚ) 1 one_pos
    have ht := List.Pairwise.sublist (List.take_sublist nHours _) hp
    exact List.Pairwise.map _ (fun a b hab => by linarith) ht
  · rw [save_daily_time_seconds, List.length_map, List.length_take,
      arange_nat_length _ _ (Nat.mul_le_mul_right _ (by omega))]
    have h1 : (day + 1) * hoursPerDay = day * hoursPerDay + hoursPerDay := by
      ring
    omega

/-- Concrete instance of claim C5: 5 hourly steps of day 0 with 24 hours per
day. -/
theorem assembled_time_strictly_increasing_witness :
    5 ≤ 24 ∧
    (save_daily_time_seconds 24 0 5).Pairwise (· < ·) :=
  ⟨by norm_num, (assembled_time_strictly_increasing 3 24 0 5 (by norm_num)).2.2.1⟩

/-- Claim C6 counterexample: the leveled mbathy derivation of
`create_nemo_bathymetry` maps a wet cell of depth 3/10 (which is > 0) to
mask value 0, where the claimed law `wetMask = 1 iff depth > 0` requires 1. -/
theorem wet_mask_levels_counterexample :
    create_nemo_mbathy defaultTargetDepths [[3 / 10]] = [[0]] ∧
    (0 : ℚ) < 3 / 10 ∧ (0 : ℕ) ≠ 1 := by
  refine ⟨?_, by norm_num, by norm_num⟩
  norm_num [create_nemo_mbathy, mbathy_levels_cell, defaultTargetDepths,
    List.enum, List.enumFrom]

/-- Claim C6 amended: the binary wet-mask derivation (`save_mesh_files` and
its clones) satisfies `wetMask = 1` iff depth > 0 at every cell; the leveled
`create_nemo_bathymetry` derivation does not, giving 0 at the wet depth
3/10 because its shallowest level is 0.5. -/
theorem wet_mask_binary_law (bathy : List (List ℚ)) :
    mk_wet_mask bathy =
      bathy.map (fun row => row.map (fun d => if 0 < d then 1 else 0)) ∧
    mbathy_levels_cell defaultTargetDepths (3 / 10) = 0 := by
  constructor
  · have hcell : ∀ d : ℚ, (if d ≤ 0 then (0 : ℕ) else 1) =
        (if 0 < d then 1 else 0) := by
      intro d
      rcases le_or_lt d 0 with h | h
      · rw [if_pos h, if_neg (not_lt.mpr h)]
      · rw [if_neg (not_le.mpr h), if_pos h]
    simp [mk_wet_mask, hcell]
  · norm_num [mbathy_levels_cell, defaultTargetDepths, List.enum,
      List.enumFrom]

/-- Concatenating the first `k` daily chunks gives the first
`k * hours_per_day` files. -/
theorem join_range_chunks {α : Type*} (files : List α) (hoursPerDay : ℕ)
    (k : ℕ) :
    ((List.range k).map (day_files files hoursPerDay)).flatten =
      files.take (k * hoursPerDay) := by
  induction k with
  | zero => simp
  | succ k ih =>
      rw [List.range_succ, List.map_append, List.flatten_append, ih]
      simp only [List.map_cons, List.map_nil, List.flatten_cons,
        List.flatten_nil, List.append_nil, day_files]
      rw [Nat.succ_mul, List.take_add]

/-- The daily chunk count covers all files. -/
theorem n_days_mul_ge (nFiles hoursPerDay : ℕ) (h : 0 < hoursPerDay) :
    nFiles ≤ n_days nFiles hoursPerDay * hoursPerDay := by
  unfold n_days
  rcases Nat.eq_zero_or_pos (nFiles % hoursPerDay) with h0 | hpos
  · rw [if_pos h0, Nat.add_zero,
      Nat.div_mul_cancel (Nat.dvd_of_mod_eq_zero h0)]
  · rw [if_neg (Nat.pos_iff_ne_zero.mp hpos)]
    have h1 := Nat.div_add_mod nFiles hoursPerDay
    have h2 := Nat.mod_lt nFiles h
    have h3 : (nFiles / hoursPerDay + 1) * hoursPerDay =
        hoursPerDay * (nFiles / hoursPerDay) + hoursPerDay := by ring
    omega

/-- The day count is the ceiling of `files / hours_per_day`. -/
theorem n_days_eq_ceil (nFiles hoursPerDay : ℕ) (h : 0 < hoursPerDay) :
    n_days nFiles hoursPerDay = (nFiles + hoursPerDay - 1) / hoursPerDay := by
  have hlt : hoursPerDay - 1 < hoursPerDay := by omega
  unfold n_days
  rcases Nat.eq_zero_or_pos (nFiles % hoursPerDay) with h0 | hpos
  · obtain ⟨q, rfl⟩ := Nat.dvd_of_mod_eq_zero h0
    rw [if_pos h0, Nat.add_zero, Nat.mul_div_cancel_left _ h]
    have h1 : hoursPerDay * q + hoursPerDay - 1 =
        hoursPerDay * q + (hoursPerDay - 1) := by omega
    rw [h1, Nat.mul_add_div h, Nat.div_eq_of_lt hlt]
    omega
  · obtain ⟨q, r, hrlt, hrpos, rfl⟩ : ∃ q r, r < hoursPerDay ∧ 0 < r ∧
        nFiles = hoursPerDay * q + r :=
      ⟨nFiles / hoursPerDay, nFiles % hoursPerDay, Nat.mod_lt _ h, hpos,
        (Nat.div_add_mod nFiles hoursPerDay).symm⟩
    rw [Nat.mul_add_div h, Nat.mul_add_mod, Nat.mod_eq_of_lt hrlt,
      Nat.div_eq_of_lt hrlt, if_neg (Nat.pos_iff_ne_zero.mp hrpos)]
    have h3 : hoursPerDay * q + r + hoursPerDay - 1 =
        hoursPerDay * (q + 1) + (r - 1) := by
      have h4 : hoursPerDay * (q + 1) = hoursPerDay * q + hoursPerDay := by
        ring
      omega
    rw [h3, Nat.mul_add_div h, Nat.div_eq_of_lt (by omega)]

/-- Every day strictly before the last starts at least one full chunk before
the end of the file list. -/
theorem le_of_lt_n_days (nFiles hoursPerDay d : ℕ) (h : 0 < hoursPerDay)
    (hd : d + 1 < n_days nFiles hoursPerDay) :
    (d + 1) * hoursPerDay ≤ nFiles := by
  unfold n_days at hd
  have h1 := Nat.div_add_mod nFiles hoursPerDay
  have h3 : (nFiles / hoursPerDay) * hoursPerDay =
      hoursPerDay * (nFiles / hoursPerDay) := by ring
  rcases Nat.eq_zero_or_pos (nFiles % hoursPerDay) with h0 | hpos
  · rw [if_pos h0, Nat.add_zero] at hd
    have h2 : (d + 1) * hoursPerDay ≤ (nFiles / hoursPerDay) * hoursPerDay :=
      Nat.mul_le_mul_right _ (by omega)
    omega
  · rw [if_neg (Nat.pos_iff_ne_zero.mp hpos)] at hd
    have h2 : (d + 1) * hoursPerDay ≤ (nFiles / hoursPerDay) * hoursPerDay :=
      Nat.mul_le_mul_right _ (by omega)
    omega

/-- Claim C9: the conversion loop partitions the snapshot files into
consecutive daily chunks: concatenating the chunks in order recovers the
file list (each file lands in exactly one chunk, order preserved, chunks
disjoint), the chunk count is `⌈N / hours_per_day⌉`, chunk `d` holds
`min(hours_per_day, N - d * hours_per_day)` files, and every chunk before
the last holds exactly `hours_per_day` files. -/
theorem convert_daily_chunking {α : Type*} (files : List α)
    (hoursPerDay : ℕ) (h : 0 < hoursPerDay) :
    (day_chunks files hoursPerDay).flatten = files ∧
    (day_chunks files hoursPerDay).length =
      (files.length + hoursPerDay - 1) / hoursPerDay ∧
    (∀ d : ℕ, (day_files files hoursPerDay d).length =
      min hoursPerDay (files.length - d * hoursPerDay)) ∧
    ∀ d : ℕ, d + 1 < n_days files.length hoursPerDay →
      (day_files files hoursPerDay d).length = hoursPerDay := by
  refine ⟨?_, ?_, ?_, ?_⟩
  · rw [day_chunks, join_range_chunks]
    exact List.take_of_length_le (n_days_mul_ge _ _ h)
  · rw [day_chunks, List.length_map, List.length_range,
      n_days_eq_ceil _ _ h]
  · intro d
    rw [day_files, List.length_take, List.length_drop]
  · intro d hd
    rw [day_files, List.length_take, List.length_drop]
    have h1 := le_of_lt_n_days files.length hoursPerDay d h hd
    have h2 : (d + 1) * hoursPerDay = d * hoursPerDay + hoursPerDay := by
      ring
    omega

/-- Concrete instance of claim C9: 5 files in chunks of 2. -/
theorem convert_daily_chunking_witness :
    0 < 2 ∧
    (day_chunks [10, 20, 30, 40, 50] 2).flatten = [10, 20, 30, 40, 50] :=
  ⟨by norm_num, (convert_daily_chunking [10, 20, 30, 40, 50] 2 (by norm_num)).1⟩

/-- Claim C10: the written W (vovecrtz) field is identically zero and the
written S (vosaline) field is identically 35.0, both fabricated with the
shape of the regridded U field, for every input. -/
theorem fabricated_w_and_s (u : List (List (List ℚ))) :
    (∀ plane ∈ make_W u, ∀ row ∈ plane, ∀ v ∈ row, v = 0) ∧
    (∀ plane ∈ make_S u, ∀ row ∈ plane, ∀ v ∈ row, v = 35) ∧
    shape3 (make_W u) = shape3 u ∧
    shape3 (make_S u) = shape3 u := by
  refine ⟨?_, ?_, ?_, ?_⟩
  · intro plane hp row hr v hv
    simp only [make_W, List.mem_map] at hp
    obtain ⟨p0, hp0, rfl⟩ := hp
    simp only [List.mem_map] at hr
    obtain ⟨r0, hr0, rfl⟩ := hr
    simp only [List.mem_map] at hv
    obtain ⟨v0, hv0, rfl⟩ := hv
    rfl
  · intro plane hp row hr v hv
    simp only [make_S, List.mem_map] at hp
    obtain ⟨p0, hp0, rfl⟩ := hp
    simp only [List.mem_map] at hr
    obtain ⟨r0, hr0, rfl⟩ := hr
    simp only [List.mem_map] at hv
    obtain ⟨v0, hv0, rfl⟩ := hv
    rfl
  · simp [shape3, make_W, List.map_map, Function.comp_def]
  · simp [shape3, make_S, List.map_map, Function.comp_def]

/-- Concrete instance of claim C10 on a 1-cell U field. -/
theorem fabricated_w_and_s_witness :
    ([[(0 : ℚ)]] ∈ make_W [[[(7 : ℚ)]]] ∧ [(0 : ℚ)] ∈ [[(0 : ℚ)]] ∧
      (0 : ℚ) ∈ [(0 : ℚ)]) ∧ (0 : ℚ) = 0 :=
  ⟨⟨by simp [make_W], by simp, by simp⟩,
    (fabricated_w_and_s [[[(7 : ℚ)]]]).1 [[(0 : ℚ)]] (by simp [make_W])
      [(0 : ℚ)] (by simp) (0 : ℚ) (by simp)⟩

end SchismRegrid
